import Mathlib

/-!
Verification of `crawl_gutendex.py` against its specification.

Shallow embedding conventions:
* Python `int` is modelled as `Int` (`Nat` where the value is provably a count).
* Python `str` is `String`; slicing/containment act on characters, matching
  Python semantics for the ASCII data involved.
* A Python function that can raise an exception becomes `Except String _`;
  the error string names the Python exception.
* The network is an oracle `net : String → Option String`: `none` models a
  `requests.exceptions.RequestException` (transport error or
  `raise_for_status` on a non-success status), `some body` a success whose
  body is `body` (used for both `response.text` and `response.content`).
* Filesystem side effects are recorded as an ordered list of `FsEntry`
  events in the order the Python code performs them.
-/

/-! ## Roman numeral encoder (`roman_numeral`, lines 25-46)

The Python loop walks the parallel lists `val`/`syms` by index `i`, and for
each index appends `syms[i]` exactly `n // val[i]` times while subtracting
`val[i]` each time (so `n` becomes `n % val[i]`), stopping as soon as
`n > 0` fails.  Reading `val[i]` past the end of the table would raise an
`IndexError`, which the embedding models by returning `none`. -/

def romanPairs : List (Int × String) :=
  [(1000, "M"), (900, "CM"), (500, "D"), (400, "CD"),
   (100, "C"), (90, "XC"), (50, "L"), (40, "XL"),
   (10, "X"), (9, "IX"), (5, "V"), (4, "IV"),
   (1, "I")]

/-- One outer-loop pass per table entry: if `n > 0` still holds and the
table is exhausted, the Python code would index out of bounds (`none`);
otherwise it appends `syms[i]` `n / val[i]` times and continues with
`n % val[i]`.  For `n > 0` and positive table values, Lean's `Int` `/` and
`%` agree with Python's `//` and `%`. -/
def romanAux : Int → List (Int × String) → Option String
  | n, ps =>
    if n ≤ 0 then some "" else
      match ps with
      | [] => none
      | (v, s) :: rest =>
        (romanAux (n % v) rest).map
          (fun t => String.join (List.replicate (n / v).toNat s) ++ t)

def roman_numeral (n : Int) : Option String :=
  romanAux n romanPairs

/-- Total wrapper used where the caller passes a positive argument
(`roman_numeral(i+1)`); justified by `roman_numeral_isSome`. -/
def romanStr (n : Int) : String :=
  (roman_numeral n).getD ""

/-- Standard Roman-to-integer parser (subtract a symbol strictly smaller
than its successor, add otherwise); used only to state the round-trip
property of the spec. -/
def romanCharValue : Char → Int
  | 'M' => 1000
  | 'D' => 500
  | 'C' => 100
  | 'L' => 50
  | 'X' => 10
  | 'V' => 5
  | 'I' => 1
  | _ => 0

def fromRomanAux : List Char → Int
  | [] => 0
  | [c] => romanCharValue c
  | c :: d :: rest =>
    if romanCharValue c < romanCharValue d then
      fromRomanAux (d :: rest) - romanCharValue c
    else
      fromRomanAux (d :: rest) + romanCharValue c

def fromRoman (s : String) : Int :=
  fromRomanAux s.toList

def romanAlphabet : List Char := ['M', 'D', 'C', 'L', 'X', 'V', 'I']

/-- The encoder never runs off the end of the table: any list ending in the
entry `(1, "I")` drives the remainder to `0` before the list is exhausted. -/
theorem romanAux_isSome :
    ∀ (ps : List (Int × String)), ps.getLast? = some (1, "I") →
      ∀ n : Int, (romanAux n ps).isSome := by
  intro ps
  induction ps with
  | nil => intro h; simp at h
  | cons p rest ih =>
    intro hlast n
    rw [romanAux]
    by_cases hn : n ≤ 0
    · simp [hn]
    · simp only [if_neg hn]
      match p, rest, hlast with
      | (v, s), [], hlast =>
        simp only [List.getLast?_singleton, Option.some.injEq, Prod.mk.injEq] at hlast
        obtain ⟨hv, _⟩ := hlast
        subst hv
        rw [romanAux]
        simp
      | (v, s), q :: rest', hlast =>
        have h2 : (q :: rest').getLast? = some (1, "I") := by
          rwa [List.getLast?_cons_cons] at hlast
        have := ih h2 (n % v)
        cases hz : romanAux (n % v) (q :: rest') with
        | none => rw [hz] at this; simp at this
        | some t => simp [hz]

theorem roman_numeral_isSome (n : Int) : (roman_numeral n).isSome :=
  romanAux_isSome romanPairs (by decide) n

/-! ### Round-trip check for the encoder, verified exhaustively on 1..3999 -/

def romanCheck (k : Nat) : Bool :=
  match roman_numeral (Int.ofNat k) with
  | none => false
  | some s =>
    s.toList.all (fun c => romanAlphabet.contains c) && fromRoman s == Int.ofNat k

set_option maxHeartbeats 4000000 in
set_option maxRecDepth 4000 in
theorem romanCheck_chunk1 : (List.range' 1 500).all romanCheck = true := by decide

set_option maxHeartbeats 4000000 in
set_option maxRecDepth 4000 in
theorem romanCheck_chunk2 : (List.range' 501 500).all romanCheck = true := by decide

set_option maxHeartbeats 4000000 in
set_option maxRecDepth 4000 in
theorem romanCheck_chunk3 : (List.range' 1001 500).all romanCheck = true := by decide

set_option maxHeartbeats 4000000 in
set_option maxRecDepth 4000 in
theorem romanCheck_chunk4 : (List.range' 1501 500).all romanCheck = true := by decide

set_option maxHeartbeats 4000000 in
set_option maxRecDepth 4000 in
theorem romanCheck_chunk5 : (List.range' 2001 500).all romanCheck = true := by decide

set_option maxHeartbeats 4000000 in
set_option maxRecDepth 4000 in
theorem romanCheck_chunk6 : (List.range' 2501 500).all romanCheck = true := by decide

set_option maxHeartbeats 4000000 in
set_option maxRecDepth 4000 in
theorem romanCheck_chunk7 : (List.range' 3001 500).all romanCheck = true := by decide

set_option maxHeartbeats 4000000 in
set_option maxRecDepth 4000 in
theorem romanCheck_chunk8 : (List.range' 3501 499).all romanCheck = true := by decide

theorem romanCheck_true (n : Nat) (h1 : 1 ≤ n) (h2 : n ≤ 3999) :
    romanCheck n = true := by
  rcases Nat.lt_or_ge n 501 with h | h
  · exact List.all_eq_true.mp romanCheck_chunk1 n (by simp; omega)
  rcases Nat.lt_or_ge n 1001 with h' | h'
  · exact List.all_eq_true.mp romanCheck_chunk2 n (by simp; omega)
  rcases Nat.lt_or_ge n 1501 with h'' | h''
  · exact List.all_eq_true.mp romanCheck_chunk3 n (by simp; omega)
  rcases Nat.lt_or_ge n 2001 with h3 | h3
  · exact List.all_eq_true.mp romanCheck_chunk4 n (by simp; omega)
  rcases Nat.lt_or_ge n 2501 with h4 | h4
  · exact List.all_eq_true.mp romanCheck_chunk5 n (by simp; omega)
  rcases Nat.lt_or_ge n 3001 with h5 | h5
  · exact List.all_eq_true.mp romanCheck_chunk6 n (by simp; omega)
  rcases Nat.lt_or_ge n 3501 with h6 | h6
  · exact List.all_eq_true.mp romanCheck_chunk7 n (by simp; omega)
  · exact List.all_eq_true.mp romanCheck_chunk8 n (by simp; omega)

/-! ## Chapter splitting (`re.split(r'Chapter\\s+\\d+', ...)`, line 78)

The pattern is the raw Python string `r'Chapter\\s+\\d+'`, i.e. the regex
`Chapter\\s+\\d+`.  In a regex `\\` matches one literal backslash and a bare
`s+` / `d+` is a greedy run of the literal letter, so a match is: the text
`Chapter` followed by a backslash, one or more `s`, a backslash, one or more
`d`.  (It does NOT match `Chapter` + whitespace + digits.)  Because the
character that must follow each greedy run (`\` resp. anything-or-nothing at
the end of the pattern) can never be the run's own letter, maximal munch is
equivalent to the regex's backtracking semantics.  `re.split` cuts the text
at each non-overlapping leftmost match, always yielding at least one
segment. -/

def chapterPatPrefix : List Char := ['C', 'h', 'a', 'p', 't', 'e', 'r', '\\']

/-- Match the tail of the pattern after the literal `Chapter\`:
one or more `s`, a backslash, one or more `d`; returns the remaining
input after the (maximal) match. -/
def matchTail (cs : List Char) : Option (List Char) :=
  match cs with
  | [] => none
  | c :: rest =>
    if c = 's' then
      match rest.dropWhile (fun x => x = 's') with
      | c2 :: c3 :: rest2 =>
        if c2 = '\\' ∧ c3 = 'd' then
          some (rest2.dropWhile (fun x => x = 'd'))
        else none
      | _ => none
    else none

/-- Match the whole pattern at the head of the input; returns the remaining
input after the match. -/
def matchChapterPat (cs : List Char) : Option (List Char) :=
  if cs.take 8 = chapterPatPrefix then matchTail (cs.drop 8) else none

/-- Scan the input left to right; at each position try the pattern, cutting
a segment at each match.  `fuel` bounds the scan; it is initialised to the
input length, which suffices because every step consumes at least one
character (`splitCharsAux_fuel`). -/
def splitCharsAux : Nat → List Char → List Char → List (List Char)
  | 0, cs, acc => [acc.reverse ++ cs]
  | fuel + 1, cs, acc =>
    match cs with
    | [] => [acc.reverse]
    | c :: rest =>
      match matchChapterPat (c :: rest) with
      | some r => acc.reverse :: splitCharsAux fuel r []
      | none => splitCharsAux fuel rest (c :: acc)

def splitChapters (text : String) : List String :=
  (splitCharsAux text.toList.length text.toList []).map String.mk

theorem matchTail_length_le (cs : List Char) (r : List Char)
    (h : matchTail cs = some r) : r.length ≤ cs.length := by
  match cs with
  | [] => simp [matchTail] at h
  | c :: rest =>
    rw [matchTail] at h
    by_cases hc : c = 's'
    · simp only [if_pos hc] at h
      cases hd : rest.dropWhile (fun x => x = 's') with
      | nil => rw [hd] at h; exact absurd h (by simp)
      | cons c2 tl =>
        cases tl with
        | nil => rw [hd] at h; exact absurd h (by simp)
        | cons c3 rest2 =>
          rw [hd] at h
          by_cases h23 : c2 = '\\' ∧ c3 = 'd'
          · simp only [if_pos h23, Option.some.injEq] at h
            subst h
            have h1 : rest2.length + 2 ≤ rest.length := by
              have := (List.dropWhile_suffix (l := rest) (fun x => x = 's')).length_le
              rw [hd] at this
              simpa using this
            have h2 := (List.dropWhile_suffix (l := rest2) (fun x => x = 'd')).length_le
            simp only [List.length_cons]
            omega
          · simp [if_neg h23] at h
    · simp [if_neg hc] at h

theorem matchChapterPat_length_lt (cs : List Char) (r : List Char)
    (h : matchChapterPat cs = some r) : r.length < cs.length := by
  rw [matchChapterPat] at h
  by_cases hp : cs.take 8 = chapterPatPrefix
  · simp only [if_pos hp] at h
    have hlen : 8 ≤ cs.length := by
      have : (cs.take 8).length = 8 := by rw [hp]; rfl
      rw [List.length_take] at this
      omega
    have := matchTail_length_le _ _ h
    rw [List.length_drop] at this
    omega
  · simp [if_neg hp] at h

/-- The fuel `cs.length` is enough: any larger fuel gives the same split,
so the fuel-exhaustion branch of `splitCharsAux` is never taken. -/
theorem splitCharsAux_fuel (fuel : Nat) (cs acc : List Char)
    (h : cs.length ≤ fuel) :
    splitCharsAux fuel cs acc = splitCharsAux cs.length cs acc := by
  induction fuel using Nat.strong_induction_on generalizing cs acc with
  | _ fuel ih =>
    match fuel with
    | 0 =>
      have : cs = [] := List.length_eq_zero.mp (Nat.le_zero.mp h)
      subst this
      rfl
    | fuel + 1 =>
      match cs with
      | [] => simp [splitCharsAux]
      | c :: rest =>
        rw [splitCharsAux]
        rw [show (c :: rest).length = rest.length + 1 from rfl, splitCharsAux]
        cases hm : matchChapterPat (c :: rest) with
        | some r =>
          have hlt := matchChapterPat_length_lt _ _ hm
          simp only [List.length_cons] at hlt h
          simp only []
          rw [ih fuel (by omega) r [] (by omega),
              ih rest.length (by omega) r [] (by omega)]
        | none =>
          simp only [List.length_cons] at h
          simp only []
          rw [ih fuel (by omega) rest (c :: acc) (by omega),
              ih rest.length (by omega) rest (c :: acc) (by omega)]

/-- Exactly like `re.split`, the split never returns an empty list. -/
theorem splitCharsAux_length_pos (fuel : Nat) (cs acc : List Char) :
    1 ≤ (splitCharsAux fuel cs acc).length := by
  induction fuel generalizing cs acc with
  | zero => simp [splitCharsAux]
  | succ fuel ih =>
    match cs with
    | [] => simp [splitCharsAux]
    | c :: rest =>
      rw [splitCharsAux]
      cases hm : matchChapterPat (c :: rest) with
      | some r => simp
      | none => simp only []; exact ih rest (c :: acc)

theorem splitChapters_length_pos (text : String) :
    1 ≤ (splitChapters text).length := by
  unfold splitChapters
  rw [List.length_map]
  exact splitCharsAux_length_pos _ _ _

/-! ## Book records and filenames (`download_book`, lines 48-126)

A record is the JSON object returned by the API.  Only the fields the code
consumes are modelled; `none` models an absent key (so `dict.get` takes its
default), and a present key holds the parsed value.  `formats` is an
association list in the dict's (insertion) order; `.get` is first-match
lookup and `.items()` preserves the order. -/

structure Author where
  name? : Option String
deriving Repr, DecidableEq

structure Book where
  title? : Option String
  authors? : Option (List Author)
  languages? : Option (List String)
  formats? : Option (List (String × String))
deriving Repr, DecidableEq

/-- Python `str.replace("/", "-")`: with a one-character pattern and
replacement this is exactly per-character substitution. -/
def pyReplaceSlash (s : String) : String :=
  String.mk (s.toList.map (fun c => if c = '/' then '-' else c))

/-- Python `s[:10]` (slices count characters). -/
def pyTake10 (s : String) : String :=
  String.mk (s.toList.take 10)

/-- Line 50: `book.get("title", "Unknown Title").replace("/", "-")[:10]`. -/
def titleOf (book : Book) : String :=
  pyTake10 (pyReplaceSlash (book.title?.getD "Unknown Title"))

/-- Line 51: `book.get("authors", [{}])[0]`.  When the key is absent the
default `[{}]` supplies the empty dict; when the key holds an empty list,
`[0]` raises `IndexError`. -/
def firstAuthor (book : Book) : Except String Author :=
  match book.authors? with
  | none => Except.ok ⟨none⟩
  | some [] => Except.error "IndexError: list index out of range"
  | some (a :: _) => Except.ok a

/-- Rest of line 51: `.get("name", "Unknown Author").replace("/", "-")`. -/
def authorName (a : Author) : String :=
  pyReplaceSlash (a.name?.getD "Unknown Author")

/-- Line 52: `book.get("languages", ["Unknown"])[0]`; again an empty
present list raises `IndexError`. -/
def firstLanguage (book : Book) : Except String String :=
  match book.languages? with
  | none => Except.ok "Unknown"
  | some [] => Except.error "IndexError: list index out of range"
  | some (l :: _) => Except.ok l

def formatsOf (book : Book) : List (String × String) :=
  book.formats?.getD []

/-- A Python string is truthy iff non-empty; `a or b` yields the first
truthy operand (else `b`), and `if not download_url` then rejects a falsy
result.  So the book proceeds exactly when some candidate is truthy, with
the `text/plain` entry preferred (line 53). -/
def pyTruthy : Option String → Option String
  | none => none
  | some s => if s = "" then none else some s

def resolveDownloadUrl (formats : List (String × String)) : Option String :=
  match pyTruthy (formats.lookup "text/plain") with
  | some u => some u
  | none => pyTruthy (formats.lookup "text/html")

/-- Line 64/65: strip the reserved filesystem characters. -/
def reservedChars : List Char := ['<', '>', ':', '"', '/', '\\', '|', '?', '*']

def sanitizeName (s : String) : String :=
  String.mk (s.toList.filter (fun c => !(reservedChars.contains c)))

/-- Line 68: folder component `f"{sanitized_title} - {sanitized_author}"`. -/
def bookFolderName (title author : String) : String :=
  sanitizeName title ++ " - " ++ sanitizeName author

/-- Line 72: `f"{sanitized_title}-{sanitized_author}.html"`. -/
def contentFileName (title author : String) : String :=
  sanitizeName title ++ "-" ++ sanitizeName author ++ ".html"

/-- Lines 80/84/113: names derived from `roman_numeral(i+1)` for 0-based
segment index `i`. -/
def chapterNumber (i : Nat) : String :=
  romanStr (Int.ofNat (i + 1))

def chapterDirName (i : Nat) : String :=
  "Chapter_" ++ chapterNumber i

def chapterFileName (i : Nat) : String :=
  "Chapter_" ++ chapterNumber i ++ ".txt"

/-- Lines 96/117: `f"image_{idx+1}.jpg"` for 0-based index `idx`. -/
def imageFileName (idx : Nat) : String :=
  "image_" ++ toString (idx + 1) ++ ".jpg"

/-- Python `key.startswith(pre)`: a character-level prefix test. -/
def pyStartsWith (s pre : String) : Bool :=
  pre.toList.isPrefixOf s.toList

/-- Line 89: the values of `formats` whose key starts with `image/`,
in mapping order. -/
def imageUrls (book : Book) : List String :=
  ((formatsOf book).filter (fun p => pyStartsWith p.1 "image/")).map Prod.snd

/-! ## Filesystem effects and metadata

`os.path.join` is modelled as a list of path components.  Each write the
code performs becomes one `FsEntry`, in program order: `dir` for
`os.makedirs(..., exist_ok=True)`, `file` for a text or binary write, and
`jsonFile` for `metadata.json` (carrying the metadata object the code
serialises with `json.dumps`). -/

structure ChapterMeta where
  chapter_number : String
  local_file_path : List String
deriving Repr, DecidableEq

structure Metadata where
  title : String
  author : String
  language : String
  download_url : String
  local_file_path : List String
  source : String
  chapters : List ChapterMeta
  images : List (List String)
deriving Repr, DecidableEq

inductive FsEntry where
  | dir : List String → FsEntry
  | file : List String → String → FsEntry
  | jsonFile : List String → Metadata → FsEntry
deriving Repr, DecidableEq

structure DownloadResult where
  fs : List FsEntry
  log : List String
deriving Repr, DecidableEq

/-- Lines 79-86: `for i, chapter_content in enumerate(chapters)`, creating
`Chapter_<roman(i+1)>/` and writing `Chapter_<roman(i+1)>.txt` inside it. -/
def chapterLoop (bookFolder : List String) : Nat → List String → List FsEntry
  | _, [] => []
  | i, content :: rest =>
    FsEntry.dir (bookFolder ++ [chapterDirName i]) ::
    FsEntry.file (bookFolder ++ [chapterDirName i, chapterFileName i]) content ::
    chapterLoop bookFolder (i + 1) rest

/-- Lines 92-100: `for idx, image_url in enumerate(image_urls)`; a failed
fetch logs and skips that image only. -/
def imageLoop (net : String → Option String) (bookFolder : List String)
    (title author : String) : Nat → List String → List FsEntry × List String
  | _, [] => ([], [])
  | idx, url :: rest =>
    let tail := imageLoop net bookFolder title author (idx + 1) rest
    match net url with
    | some bytes =>
      (FsEntry.file (bookFolder ++ ["images", imageFileName idx]) bytes :: tail.1,
       tail.2)
    | none =>
      (tail.1,
       ("Error downloading image " ++ toString (idx + 1) ++ " for " ++ title
         ++ " by " ++ author) :: tail.2)

/-- Lines 103-119: the metadata object. -/
def buildMetadata (title author language url : String)
    (bookFolder : List String) (fileName : String)
    (chapterCount : Nat) (imageCount : Nat) : Metadata :=
  { title := title
    author := author
    language := language
    download_url := url
    local_file_path := bookFolder ++ [fileName]
    source := "Project Gutenberg"
    chapters := (List.range chapterCount).map (fun i =>
      { chapter_number := chapterNumber i
        local_file_path := [chapterDirName i, chapterFileName i] })
    images := (List.range imageCount).map (fun idx =>
      ["images", imageFileName idx]) }

/-- The whole body of the `try` block, lines 60-124, entered with the book
body text already fetched. -/
def downloadBody (book : Book) (output_dir : String)
    (net : String → Option String) (title author language url text : String) :
    DownloadResult :=
  let bookFolder := [output_dir, bookFolderName title author]
  let fileName := contentFileName title author
  let chapters := splitChapters text
  let urls := imageUrls book
  let imgs := imageLoop net bookFolder title author 0 urls
  { fs := FsEntry.dir bookFolder ::
      FsEntry.file (bookFolder ++ [fileName]) text ::
      chapterLoop bookFolder 0 chapters ++
      (FsEntry.dir (bookFolder ++ ["images"]) :: imgs.1) ++
      [FsEntry.jsonFile (bookFolder ++ ["metadata.json"])
        (buildMetadata title author language url bookFolder fileName
          chapters.length urls.length)]
    log := imgs.2 ++ ["Downloaded: " ++ title ++ " by " ++ author] }

/-- `download_book(book, output_dir)` (lines 48-126).  The result is
`Except.error e` when the Python function lets an exception escape to its
caller, and `Except.ok` with the filesystem events and log lines
otherwise. -/
def download_book (book : Book) (output_dir : String)
    (net : String → Option String) : Except String DownloadResult := do
  let title := titleOf book
  let a ← firstAuthor book
  let author := authorName a
  let language ← firstLanguage book
  match resolveDownloadUrl (formatsOf book) with
  | none =>
    return { fs := []
             log := ["No downloadable format found for " ++ title ++ " by "
               ++ author] }
  | some url =>
    match net url with
    | none =>
      return { fs := []
               log := ["Error downloading " ++ title ++ " by " ++ author] }
    | some text =>
      return downloadBody book output_dir net title author language url text

/-! ## Metadata fetcher (`fetch_books`, lines 8-23)

The API is an oracle from the request (url and params dict) to either a
`RequestException` (`none`, covering transport errors and
`raise_for_status` on a non-success status) or a parsed JSON body.  Of the
body only the presence/value of the `results` key matters; a missing key
makes `response.json()["results"]` raise a `KeyError`, which is not a
`RequestException` and therefore escapes the `except` clause. -/

def base_url : String := "https://gutendex.com/books/"

structure ApiParams where
  language : String
  search : String
  limit : Int
deriving Repr, DecidableEq

structure ApiBody where
  results? : Option (List Book)

def fetch_books (language : String) (limit : Int) (search_keyword : String)
    (api : String → ApiParams → Option ApiBody) : Except String (List Book) :=
  match api base_url { language := language, search := search_keyword, limit := limit } with
  | none => Except.ok []
  | some body =>
    match body.results? with
    | some rs => Except.ok rs
    | none => Except.error "KeyError: results"

/-! ## Observations on a download result -/

def mdEntry : FsEntry → Option Metadata
  | FsEntry.jsonFile _ m => some m
  | _ => none

def metadataOf (r : DownloadResult) : Option Metadata :=
  r.fs.findSome? mdEntry

def isFileAt (p : List String) : FsEntry → Bool
  | FsEntry.file q _ => q == p
  | _ => false

def hasFile (r : DownloadResult) (p : List String) : Bool :=
  r.fs.any (isFileAt p)

def isDirAt (p : List String) : FsEntry → Bool
  | FsEntry.dir q => q == p
  | _ => false

def hasDir (r : DownloadResult) (p : List String) : Bool :=
  r.fs.any (isDirAt p)

/-- A written file under the book's `images` subdirectory (the book folder
has two components: the output directory and the book folder name). -/
def isImageFile (bf : List String) : FsEntry → Bool
  | FsEntry.file q _ => (q.length == 4) && (q.take 3 == bf ++ ["images"])
  | _ => false

def imageFileCount (r : DownloadResult) (bf : List String) : Nat :=
  r.fs.countP (isImageFile bf)

def resultOf : Except String DownloadResult → Option DownloadResult
  | Except.ok r => some r
  | Except.error _ => none

/-! ## Helper lemmas about `download_book` -/

theorem firstAuthor_ok (book : Book) (h : book.authors? ≠ some []) :
    ∃ a, firstAuthor book = Except.ok a := by
  cases hb : book.authors? with
  | none => exact ⟨⟨none⟩, by simp [firstAuthor, hb]⟩
  | some l =>
    cases l with
    | nil => exact absurd hb h
    | cons a t => exact ⟨a, by simp [firstAuthor, hb]⟩

theorem firstLanguage_ok (book : Book) (h : book.languages? ≠ some []) :
    ∃ l, firstLanguage book = Except.ok l := by
  cases hb : book.languages? with
  | none => exact ⟨"Unknown", by simp [firstLanguage, hb]⟩
  | some l =>
    cases l with
    | nil => exact absurd hb h
    | cons s t => exact ⟨s, by simp [firstLanguage, hb]⟩

theorem download_book_no_format (book : Book) (out : String)
    (net : String → Option String) (a : Author) (lang : String)
    (hA : firstAuthor book = Except.ok a)
    (hL : firstLanguage book = Except.ok lang)
    (hU : resolveDownloadUrl (formatsOf book) = none) :
    download_book book out net = Except.ok
      { fs := []
        log := ["No downloadable format found for " ++ titleOf book ++ " by "
          ++ authorName a] } := by
  simp only [download_book, hA, hL, hU]
  rfl

theorem download_book_fetch_fail (book : Book) (out : String)
    (net : String → Option String) (a : Author) (lang : String) (url : String)
    (hA : firstAuthor book = Except.ok a)
    (hL : firstLanguage book = Except.ok lang)
    (hU : resolveDownloadUrl (formatsOf book) = some url)
    (hN : net url = none) :
    download_book book out net = Except.ok
      { fs := []
        log := ["Error downloading " ++ titleOf book ++ " by "
          ++ authorName a] } := by
  simp only [download_book, hA, hL, hU, hN]
  rfl

theorem download_book_success (book : Book) (out : String)
    (net : String → Option String) (a : Author) (lang : String)
    (url text : String)
    (hA : firstAuthor book = Except.ok a)
    (hL : firstLanguage book = Except.ok lang)
    (hU : resolveDownloadUrl (formatsOf book) = some url)
    (hN : net url = some text) :
    download_book book out net = Except.ok
      (downloadBody book out net (titleOf book) (authorName a) lang url text) := by
  simp only [download_book, hA, hL, hU, hN]
  rfl

theorem mdEntry_chapterLoop (bf : List String) :
    ∀ (cs : List String) (i : Nat),
      (chapterLoop bf i cs).findSome? mdEntry = none := by
  intro cs
  induction cs with
  | nil => intro i; rfl
  | cons c rest ih =>
    intro i
    simp only [chapterLoop, List.findSome?_cons]
    exact ih (i + 1)

theorem mdEntry_imageLoop (net : String → Option String) (bf : List String)
    (t a : String) :
    ∀ (us : List String) (idx : Nat),
      ((imageLoop net bf t a idx us).1).findSome? mdEntry = none := by
  intro us
  induction us with
  | nil => intro idx; rfl
  | cons u rest ih =>
    intro idx
    rw [imageLoop]
    cases hn : net u with
    | some b => simp only [List.findSome?_cons]; exact ih (idx + 1)
    | none => exact ih (idx + 1)

theorem metadataOf_downloadBody (book : Book) (out : String)
    (net : String → Option String) (title author lang url text : String) :
    metadataOf (downloadBody book out net title author lang url text) =
      some (buildMetadata title author lang url
        [out, bookFolderName title author] (contentFileName title author)
        (splitChapters text).length (imageUrls book).length) := by
  simp only [metadataOf, downloadBody, List.findSome?_cons, mdEntry,
    List.findSome?_append, mdEntry_chapterLoop, mdEntry_imageLoop]
  rfl

theorem chapterDirName_ne_images (i : Nat) : chapterDirName i ≠ "images" := by
  intro h
  have hd := congrArg String.data h
  rw [chapterDirName, String.data_append] at hd
  have e1 : "Chapter_".data = ['C', 'h', 'a', 'p', 't', 'e', 'r', '_'] := rfl
  have e2 : "images".data = ['i', 'm', 'a', 'g', 'e', 's'] := rfl
  rw [e1, e2] at hd
  simp at hd

theorem countP_chapterLoop (out fn : String) :
    ∀ (cs : List String) (i : Nat),
      (chapterLoop [out, fn] i cs).countP (isImageFile [out, fn]) = 0 := by
  intro cs
  induction cs with
  | nil => intro i; rfl
  | cons c rest ih =>
    intro i
    rw [chapterLoop, List.countP_cons, List.countP_cons, ih (i + 1)]
    have h1 : isImageFile [out, fn] (FsEntry.dir ([out, fn] ++ [chapterDirName i])) = false := rfl
    have h2 : isImageFile [out, fn]
        (FsEntry.file ([out, fn] ++ [chapterDirName i, chapterFileName i]) c) = false := by
      simp [isImageFile, chapterDirName_ne_images i]
    rw [h1, h2]
    rfl

theorem countP_imageLoop (net : String → Option String) (out fn t a : String) :
    ∀ (us : List String) (idx : Nat),
      ((imageLoop net [out, fn] t a idx us).1).countP (isImageFile [out, fn]) =
        (us.filter (fun u => (net u).isSome)).length := by
  intro us
  induction us with
  | nil => intro idx; rfl
  | cons u rest ih =>
    intro idx
    rw [imageLoop]
    cases hn : net u with
    | some b =>
      simp only [List.filter_cons, hn, Option.isSome_some, if_true]
      rw [List.countP_cons]
      have : isImageFile [out, fn]
          (FsEntry.file ([out, fn] ++ ["images", imageFileName idx]) b) = true := by
        simp [isImageFile]
      rw [this, ih (idx + 1)]
      simp
    | none =>
      simp only [List.filter_cons, hn, Option.isSome_none]
      rw [ih (idx + 1)]
      simp

theorem log_length_imageLoop (net : String → Option String) (bf : List String)
    (t a : String) :
    ∀ (us : List String) (idx : Nat),
      ((imageLoop net bf t a idx us).2).length =
        (us.filter (fun u => (net u).isNone)).length := by
  intro us
  induction us with
  | nil => intro idx; rfl
  | cons u rest ih =>
    intro idx
    rw [imageLoop]
    cases hn : net u with
    | some b =>
      simp only [List.filter_cons, hn, Option.isNone_some]
      simpa using ih (idx + 1)
    | none =>
      simp only [List.filter_cons, hn, Option.isNone_none, if_true]
      simp only [List.length_cons]
      rw [ih (idx + 1)]

theorem imageLoop_hasFile (net : String → Option String) (out fn t a : String) :
    ∀ (us : List String) (idx k : Nat) (b : String),
      net (us.getD k "") = some b → k < us.length →
      ((imageLoop net [out, fn] t a idx us).1).any
        (isFileAt [out, fn, "images", imageFileName (idx + k)]) = true := by
  intro us
  induction us with
  | nil => intro idx k b _ hk; simp at hk
  | cons u rest ih =>
    intro idx k b hb hk
    rw [imageLoop]
    match k, hb, hk with
    | 0, hb, hk =>
      simp only [List.getD_cons_zero] at hb
      rw [hb]
      simp [isFileAt]
    | k + 1, hb, hk =>
      simp only [List.getD_cons_succ] at hb
      have hk' : k < rest.length := by simpa using hk
      have := ih (idx + 1) k b hb hk'
      have harith : idx + 1 + k = idx + (k + 1) := by omega
      rw [harith] at this
      cases hn : net u with
      | some b' => simp only [List.any_cons, this, Bool.or_true]
      | none => exact this

theorem hasFile_image_downloadBody (book : Book) (out : String)
    (net : String → Option String) (title author lang url text : String)
    (k : Nat) (b : String)
    (hk : k < (imageUrls book).length)
    (hb : net ((imageUrls book).getD k "") = some b) :
    hasFile (downloadBody book out net title author lang url text)
      [out, bookFolderName title author, "images", imageFileName k] = true := by
  unfold hasFile downloadBody
  simp only [List.any_cons, List.any_append]
  have h := imageLoop_hasFile net out (bookFolderName title author) title author
    (imageUrls book) 0 k b hb hk
  simp only [Nat.zero_add] at h
  simp [h]

theorem imageFileCount_downloadBody (book : Book) (out : String)
    (net : String → Option String) (title author lang url text : String) :
    imageFileCount (downloadBody book out net title author lang url text)
      [out, bookFolderName title author] =
      ((imageUrls book).filter (fun u => (net u).isSome)).length := by
  unfold imageFileCount downloadBody
  simp only [List.countP_cons, List.countP_append, countP_chapterLoop,
    countP_imageLoop]
  have h1 : isImageFile [out, bookFolderName title author]
      (FsEntry.dir [out, bookFolderName title author]) = false := rfl
  have h2 : isImageFile [out, bookFolderName title author]
      (FsEntry.file ([out, bookFolderName title author] ++
        [contentFileName title author]) text) = false := rfl
  have h3 : isImageFile [out, bookFolderName title author]
      (FsEntry.dir ([out, bookFolderName title author] ++ ["images"])) = false := rfl
  have h4 : isImageFile [out, bookFolderName title author]
      (FsEntry.jsonFile ([out, bookFolderName title author] ++ ["metadata.json"])
        (buildMetadata title author lang url [out, bookFolderName title author]
          (contentFileName title author) (splitChapters text).length
          (imageUrls book).length)) = false := rfl
  rw [h1, h2, h3, h4]
  simp

theorem log_length_downloadBody (book : Book) (out : String)
    (net : String → Option String) (title author lang url text : String) :
    (downloadBody book out net title author lang url text).log.length =
      ((imageUrls book).filter (fun u => (net u).isNone)).length + 1 := by
  unfold downloadBody
  simp only [List.length_append, List.length_cons, List.length_nil]
  rw [log_length_imageLoop]

theorem hasDir_downloadBody (book : Book) (out : String)
    (net : String → Option String) (title author lang url text : String) :
    hasDir (downloadBody book out net title author lang url text)
      [out, bookFolderName title author] = true := by
  unfold hasDir downloadBody
  simp [isDirAt]

theorem hasFile_content_downloadBody (book : Book) (out : String)
    (net : String → Option String) (title author lang url text : String) :
    hasFile (downloadBody book out net title author lang url text)
      [out, bookFolderName title author, contentFileName title author] = true := by
  unfold hasFile downloadBody
  simp [isFileAt]

/-! ## Name-derivation lemmas (claim C9 support) -/

theorem pyTake10_replaceSlash_comm (s : String) :
    pyTake10 (pyReplaceSlash s) = pyTake10 (pyReplaceSlash (pyTake10 s)) := by
  unfold pyTake10 pyReplaceSlash
  congr 1
  show (s.toList.map (fun c => if c = '/' then '-' else c)).take 10
    = ((s.toList.take 10).map (fun c => if c = '/' then '-' else c)).take 10
  rw [← List.map_take, ← List.map_take, List.take_take]
  simp

theorem sanitizeName_no_reserved (s : String) :
    ∀ c ∈ (sanitizeName s).toList, c ∉ reservedChars := by
  intro c hc
  unfold sanitizeName at hc
  have : c ∈ s.toList.filter (fun c => !(reservedChars.contains c)) := hc
  have hp := List.of_mem_filter this
  simp at hp
  simpa using hp

theorem bookFolderName_no_reserved (t a : String) :
    ∀ c ∈ (bookFolderName t a).toList, c ∉ reservedChars := by
  intro c hc
  unfold bookFolderName at hc
  have hd : (sanitizeName t ++ " - " ++ sanitizeName a).data
      = (sanitizeName t).data ++ " - ".data ++ (sanitizeName a).data := by
    rw [String.data_append, String.data_append]
  have hc' : c ∈ (sanitizeName t).data ++ " - ".data ++ (sanitizeName a).data := by
    rw [← hd]; exact hc
  rcases List.mem_append.mp hc' with h | h
  · rcases List.mem_append.mp h with h' | h'
    · exact sanitizeName_no_reserved t c h'
    · have : c = ' ' ∨ c = '-' := by
        have e : " - ".data = [' ', '-', ' '] := rfl
        rw [e] at h'
        simp at h'
        tauto
      rcases this with h'' | h'' <;> (subst h''; decide)
  · exact sanitizeName_no_reserved a c h

theorem contentFileName_no_reserved (t a : String) :
    ∀ c ∈ (contentFileName t a).toList, c ∉ reservedChars := by
  intro c hc
  unfold contentFileName at hc
  have hd : (sanitizeName t ++ "-" ++ sanitizeName a ++ ".html").data
      = ((sanitizeName t).data ++ "-".data ++ (sanitizeName a).data) ++ ".html".data := by
    rw [String.data_append, String.data_append, String.data_append]
  have hc' : c ∈ ((sanitizeName t).data ++ "-".data ++ (sanitizeName a).data) ++ ".html".data := by
    rw [← hd]; exact hc
  rcases List.mem_append.mp hc' with h | h
  · rcases List.mem_append.mp h with h' | h'
    · rcases List.mem_append.mp h' with h'' | h''
      · exact sanitizeName_no_reserved t c h''
      · have : c = '-' := by
          have e : "-".data = ['-'] := rfl
          rw [e] at h''
          simpa using h''
        subst this; decide
    · exact sanitizeName_no_reserved a c h'
  · have : c ∈ ['.', 'h', 't', 'm', 'l'] := by
      have e : ".html".data = ['.', 'h', 't', 'm', 'l'] := rfl
      rw [e] at h
      exact h
    fin_cases this <;> decide

/-! ## Claims -/

/-- C10: `roman_numeral` terminates for every integer input and never
indexes out of bounds (`isSome`: the table is never read past its last
entry); for `n ≤ 0` the loop body is never entered and the empty string is
returned immediately. -/
theorem romanAux_nonpos (n : Int) (ps : List (Int × String)) (h : n ≤ 0) :
    romanAux n ps = some "" := by
  rw [romanAux.eq_def]
  simp [h]

theorem claim_C10_roman_total (n : Int) :
    (roman_numeral n).isSome = true ∧ (n ≤ 0 → roman_numeral n = some "") :=
  ⟨roman_numeral_isSome n, fun h => romanAux_nonpos n romanPairs h⟩

theorem claim_C10_witness :
    (roman_numeral (-3)).isSome = true ∧ roman_numeral (-3) = some "" := by
  have h := claim_C10_roman_total (-3)
  exact ⟨h.1, h.2 (by decide)⟩

/-- C5: for every `1 ≤ n ≤ 3999` the encoder yields a string over the
alphabet `M,D,C,L,X,V,I` that the standard Roman-to-integer parser maps
back to `n`. -/
theorem claim_C5_roman_roundtrip (n : Nat) (h1 : 1 ≤ n) (h2 : n ≤ 3999) :
    ∃ s : String, roman_numeral (Int.ofNat n) = some s ∧
      (∀ c ∈ s.toList, c ∈ romanAlphabet) ∧ fromRoman s = Int.ofNat n := by
  have hc := romanCheck_true n h1 h2
  unfold romanCheck at hc
  cases hs : roman_numeral (Int.ofNat n) with
  | none => rw [hs] at hc; simp at hc
  | some s =>
    rw [hs] at hc
    simp only [Bool.and_eq_true, beq_iff_eq] at hc
    refine ⟨s, rfl, fun c hcm => ?_, hc.2⟩
    have := List.all_eq_true.mp hc.1 c hcm
    exact List.mem_of_elem_eq_true this

theorem claim_C5_witness : fromRoman (romanStr (Int.ofNat 3)) = Int.ofNat 3 := by
  obtain ⟨s, hs, _, hrt⟩ := claim_C5_roman_roundtrip 3 (by decide) (by decide)
  unfold romanStr
  rw [hs]
  exact hrt

/-- C4: `fetch_books` returns `[]` on any transport error or non-success
status; on success it returns the `results` array, and a body without that
key raises a `KeyError` that propagates to the caller. -/
theorem claim_C4_fetch_books (language : String) (limit : Int) (kw : String)
    (api : String → ApiParams → Option ApiBody) :
    (api base_url { language := language, search := kw, limit := limit } = none →
      fetch_books language limit kw api = Except.ok []) ∧
    (∀ body rs, api base_url { language := language, search := kw, limit := limit } = some body →
      body.results? = some rs → fetch_books language limit kw api = Except.ok rs) ∧
    (∀ body, api base_url { language := language, search := kw, limit := limit } = some body →
      body.results? = none →
      fetch_books language limit kw api = Except.error "KeyError: results") := by
  refine ⟨fun h => ?_, fun body rs hb hr => ?_, fun body hb hr => ?_⟩
  · simp [fetch_books, h]
  · simp [fetch_books, hb, hr]
  · simp [fetch_books, hb, hr]

theorem claim_C4_witness :
    fetch_books "en" 10 "" (fun _ _ => none) = Except.ok [] ∧
    fetch_books "en" 10 "" (fun _ _ => some { results? := some [] }) = Except.ok [] ∧
    fetch_books "en" 10 "" (fun _ _ => some { results? := none }) =
      Except.error "KeyError: results" :=
  ⟨(claim_C4_fetch_books "en" 10 "" (fun _ _ => none)).1 rfl,
   (claim_C4_fetch_books "en" 10 "" (fun _ _ => some { results? := some [] })).2.1
     { results? := some [] } [] rfl rfl,
   (claim_C4_fetch_books "en" 10 "" (fun _ _ => some { results? := none })).2.2
     { results? := none } rfl rfl⟩

/-- A record whose `authors` key is present but holds the empty list. -/
def bookEmptyAuthors : Book :=
  { title? := some "T"
    authors? := some []
    languages? := none
    formats? := some [("text/plain", "http://t")] }

/-- C2 counterexample: `download_book` raises an uncaught `IndexError` for
a record whose `authors` field is present but an empty list (line 51:
`book.get("authors", [{}])[0]`), so it does escalate an error to the
caller. -/
theorem claim_C2_counterexample :
    download_book bookEmptyAuthors "output" (fun _ => some "body") =
      Except.error "IndexError: list index out of range" := rfl

/-- C2 amended: `download_book` never raises provided the `authors` and
`languages` fields, when present, are non-empty lists; with an empty
present list it raises an uncaught `IndexError`. -/
theorem claim_C2_amended (book : Book) (out : String)
    (net : String → Option String)
    (hA : book.authors? ≠ some []) (hL : book.languages? ≠ some []) :
    ∃ r, download_book book out net = Except.ok r := by
  obtain ⟨a, ha⟩ := firstAuthor_ok book hA
  obtain ⟨lang, hl⟩ := firstLanguage_ok book hL
  cases hU : resolveDownloadUrl (formatsOf book) with
  | none => exact ⟨_, download_book_no_format book out net a lang ha hl hU⟩
  | some url =>
    cases hN : net url with
    | none => exact ⟨_, download_book_fetch_fail book out net a lang url ha hl hU hN⟩
    | some text => exact ⟨_, download_book_success book out net a lang url text ha hl hU hN⟩

def bookC2w : Book :=
  { title? := some "T"
    authors? := none
    languages? := none
    formats? := none }

theorem claim_C2_witness :
    (download_book bookC2w "output" (fun _ => none)).isOk = true := by
  obtain ⟨r, hr⟩ := claim_C2_amended bookC2w "output" (fun _ => none)
    (by simp [bookC2w]) (by simp [bookC2w])
  rw [hr]
  rfl

/-- A record with image formats only and an empty `authors` list. -/
def bookNoTextFormats : Book :=
  { title? := some "T7"
    authors? := some []
    languages? := none
    formats? := some [("image/jpeg", "http://i")] }

/-- C7 counterexample: a record with no usable text format but with
`authors` present as the empty list does not "log and return": the
`IndexError` of line 51 is raised before the format check of line 55, so
`download_book` errors instead of returning. -/
theorem claim_C7_counterexample :
    resolveDownloadUrl (formatsOf bookNoTextFormats) = none ∧
    download_book bookNoTextFormats "output" (fun _ => none) =
      Except.error "IndexError: list index out of range" := by
  constructor
  · rfl
  · rfl

/-- C7 amended: for records whose `authors`/`languages` fields, when
present, are non-empty, a record with neither a truthy `text/plain` nor a
truthy `text/html` entry makes `download_book` log one line and return
with no filesystem side effects. -/
theorem claim_C7_amended (book : Book) (out : String)
    (net : String → Option String)
    (hA : book.authors? ≠ some []) (hL : book.languages? ≠ some [])
    (hU : resolveDownloadUrl (formatsOf book) = none) :
    ∃ msg, download_book book out net = Except.ok { fs := [], log := [msg] } := by
  obtain ⟨a, ha⟩ := firstAuthor_ok book hA
  obtain ⟨lang, hl⟩ := firstLanguage_ok book hL
  exact ⟨_, download_book_no_format book out net a lang ha hl hU⟩

def bookC7w : Book :=
  { title? := some "T7b"
    authors? := none
    languages? := none
    formats? := none }

theorem claim_C7_witness :
    (resultOf (download_book bookC7w "out7" (fun _ => none))).map
        (fun r => r.fs) = some [] := by
  obtain ⟨msg, hm⟩ := claim_C7_amended bookC7w "out7" (fun _ => none)
    (by simp [bookC7w]) (by simp [bookC7w]) rfl
  rw [hm]
  rfl

/-- C8: if the fetch of the resolved download URL fails with a transport
or HTTP error, `download_book` logs one line and returns with the
filesystem unchanged: no directory, content file, chapter file, images
directory or metadata file is recorded.  (The record must get that far:
its `authors`/`languages` fields, when present, are non-empty.) -/
theorem claim_C8_fetch_fail_skip (book : Book) (out : String)
    (net : String → Option String) (url : String)
    (hA : book.authors? ≠ some []) (hL : book.languages? ≠ some [])
    (hU : resolveDownloadUrl (formatsOf book) = some url)
    (hN : net url = none) :
    ∃ msg, download_book book out net = Except.ok { fs := [], log := [msg] } := by
  obtain ⟨a, ha⟩ := firstAuthor_ok book hA
  obtain ⟨lang, hl⟩ := firstLanguage_ok book hL
  exact ⟨_, download_book_fetch_fail book out net a lang url ha hl hU hN⟩

def bookC8w : Book :=
  { title? := some "T8"
    authors? := none
    languages? := none
    formats? := some [("text/html", "http://u8")] }

theorem claim_C8_witness :
    (resultOf (download_book bookC8w "out8" (fun _ => none))).map
        (fun r => r.fs) = some [] := by
  obtain ⟨msg, hm⟩ := claim_C8_fetch_fail_skip bookC8w "out8" (fun _ => none)
    "http://u8" (by simp [bookC8w]) (by simp [bookC8w]) rfl rfl
  rw [hm]
  rfl

/-- The body text of the spec's chapter-splitting example. -/
def c1text : String := "Intro text Chapter 1 body one Chapter 2 body two"

def c1book : Book :=
  { title? := some "Example"
    authors? := none
    languages? := none
    formats? := some [("text/plain", "http://x")] }

def c1net : String → Option String :=
  fun u => if u = "http://x" then some c1text else none

/-- C1: the claim is right about the intended behaviour but the code is
wrong: the pattern `r'Chapter\\s+\\d+'` escapes its backslashes, so it
matches a literal backslash + `s`-run + backslash + `d`-run and never
matches `Chapter 1`.  On the spec's example the split yields 1 segment
(not 3), only `Chapter_I` is created (no `Chapter_II`/`Chapter_III`), and
the metadata `chapters` array has exactly 1 entry. -/
theorem claim_C1_split_is_literal :
    splitChapters c1text = [c1text] ∧
    ((resultOf (download_book c1book "output" c1net)).bind metadataOf).map
      (fun m => m.chapters.length) = some 1 ∧
    (resultOf (download_book c1book "output" c1net)).map
      (fun r => hasDir r ["output", "Example - Unknown Author", "Chapter_I"]) = some true ∧
    (resultOf (download_book c1book "output" c1net)).map
      (fun r => hasDir r ["output", "Example - Unknown Author", "Chapter_II"]) = some false ∧
    (resultOf (download_book c1book "output" c1net)).map
      (fun r => hasDir r ["output", "Example - Unknown Author", "Chapter_III"]) = some false := by
  decide

/-- C6: for every fetched body text the split yields at least one segment,
and the metadata `chapters` array has exactly one entry per segment, the
leading segment being numbered `I`. -/
theorem claim_C6_segment_invariant (book : Book) (out : String)
    (net : String → Option String) (url text : String)
    (hA : book.authors? ≠ some []) (hL : book.languages? ≠ some [])
    (hU : resolveDownloadUrl (formatsOf book) = some url)
    (hN : net url = some text) :
    1 ≤ (splitChapters text).length ∧
    ∃ r, download_book book out net = Except.ok r ∧
      (metadataOf r).map (fun m => m.chapters.length) =
        some (splitChapters text).length ∧
      ((metadataOf r).bind (fun m => m.chapters.head?)).map
        ChapterMeta.chapter_number = some "I" := by
  refine ⟨splitChapters_length_pos text, ?_⟩
  obtain ⟨a, ha⟩ := firstAuthor_ok book hA
  obtain ⟨lang, hl⟩ := firstLanguage_ok book hL
  refine ⟨_, download_book_success book out net a lang url text ha hl hU hN, ?_, ?_⟩
  · rw [metadataOf_downloadBody]
    simp [buildMetadata]
  · rw [metadataOf_downloadBody]
    obtain ⟨m, hm⟩ : ∃ m, (splitChapters text).length = m + 1 :=
      ⟨(splitChapters text).length - 1,
        (Nat.succ_pred_eq_of_pos (splitChapters_length_pos text)).symm⟩
    have hI : chapterNumber 0 = "I" := by decide
    simp [buildMetadata, hm, List.range_succ_eq_map, hI]

def c6book : Book :=
  { title? := some "Six"
    authors? := none
    languages? := none
    formats? := some [("text/plain", "http://c6")] }

theorem claim_C6_witness :
    1 ≤ (splitChapters "plain body").length ∧
    (download_book c6book "out6" (fun _ => some "plain body")).isOk = true := by
  have h := claim_C6_segment_invariant c6book "out6" (fun _ => some "plain body")
    "http://c6" "plain body" (by simp [c6book]) (by simp [c6book]) rfl rfl
  obtain ⟨h1, r, hr, _, _⟩ := h
  exact ⟨h1, by rw [hr]; rfl⟩

/-- C3: the metadata `images` array lists one positional path per
image-format URL regardless of per-image fetch success; every successful
fetch produces the corresponding file, the number of image files written
equals the number of successful fetches (so a failed fetch writes
nothing), and one line is logged per failure plus the final success line
(the book is not aborted). -/
theorem claim_C3_images_positional (book : Book) (out : String)
    (net : String → Option String) (url text : String)
    (hA : book.authors? ≠ some []) (hL : book.languages? ≠ some [])
    (hU : resolveDownloadUrl (formatsOf book) = some url)
    (hN : net url = some text) :
    ∃ a r, firstAuthor book = Except.ok a ∧
      download_book book out net = Except.ok r ∧
      (metadataOf r).map Metadata.images =
        some ((List.range (imageUrls book).length).map
          (fun idx => ["images", imageFileName idx])) ∧
      (∀ k b, k < (imageUrls book).length →
        net ((imageUrls book).getD k "") = some b →
        hasFile r [out, bookFolderName (titleOf book) (authorName a),
          "images", imageFileName k] = true) ∧
      imageFileCount r [out, bookFolderName (titleOf book) (authorName a)] =
        ((imageUrls book).filter (fun u => (net u).isSome)).length ∧
      r.log.length = ((imageUrls book).filter (fun u => (net u).isNone)).length + 1 := by
  obtain ⟨a, ha⟩ := firstAuthor_ok book hA
  obtain ⟨lang, hl⟩ := firstLanguage_ok book hL
  refine ⟨a, _, ha, download_book_success book out net a lang url text ha hl hU hN,
    ?_, ?_, ?_, ?_⟩
  · rw [metadataOf_downloadBody]
    rfl
  · intro k b hk hb
    exact hasFile_image_downloadBody book out net (titleOf book) (authorName a)
      lang url text k b hk hb
  · exact imageFileCount_downloadBody book out net (titleOf book) (authorName a)
      lang url text
  · exact log_length_downloadBody book out net (titleOf book) (authorName a)
      lang url text

def c3book : Book :=
  { title? := some "Pic Book"
    authors? := none
    languages? := none
    formats? := some [("text/plain", "http://u3"), ("image/jpeg", "http://i1"),
      ("image/png", "http://i2")] }

def c3net : String → Option String :=
  fun u =>
    if u = "http://u3" then some "body"
    else if u = "http://i1" then some "IMG1"
    else none

theorem claim_C3_witness :
    (resultOf (download_book c3book "out3" c3net)).map
      (fun r => hasFile r ["out3", "Pic Book - Unknown Author", "images",
        "image_1.jpg"]) = some true ∧
    (resultOf (download_book c3book "out3" c3net)).map
      (fun r => hasFile r ["out3", "Pic Book - Unknown Author", "images",
        "image_2.jpg"]) = some false ∧
    ((resultOf (download_book c3book "out3" c3net)).bind metadataOf).map
      Metadata.images =
      some [["images", "image_1.jpg"], ["images", "image_2.jpg"]] := by
  refine ⟨?_, by decide, by decide⟩
  obtain ⟨a, r, ha, hr, _, hpos, _, _⟩ :=
    claim_C3_images_positional c3book "out3" c3net "http://u3" "body"
      (by simp [c3book]) (by simp [c3book]) rfl rfl
  have haa : a = ⟨none⟩ := by
    simp only [firstAuthor, c3book] at ha
    injection ha with h
    exact h.symm
  subst haa
  have hp := hpos 0 "IMG1" (by decide) (by decide)
  have pe : [("out3" : String), bookFolderName (titleOf c3book) (authorName ⟨none⟩),
      "images", imageFileName 0] =
      ["out3", "Pic Book - Unknown Author", "images", "image_1.jpg"] := by decide
  rw [pe] at hp
  rw [hr]
  simp only [resultOf, Option.map_some', Option.some.injEq]
  exact hp

/-- C9: the book directory name and content file name are derived from the
title only through its first 10 characters (`/`→`-` replacement is
per-character, so it commutes with the truncation, and truncation happens
before the reserved-character sanitization), and neither resulting name
contains a character of the reserved set. -/
theorem claim_C9_name_derivation (book : Book) (out : String)
    (net : String → Option String) (url text : String)
    (hA : book.authors? ≠ some []) (hL : book.languages? ≠ some [])
    (hU : resolveDownloadUrl (formatsOf book) = some url)
    (hN : net url = some text) :
    titleOf book =
      pyTake10 (pyReplaceSlash (pyTake10 (book.title?.getD "Unknown Title"))) ∧
    ∃ a r, firstAuthor book = Except.ok a ∧
      download_book book out net = Except.ok r ∧
      (∀ c ∈ (bookFolderName (titleOf book) (authorName a)).toList,
        c ∉ reservedChars) ∧
      (∀ c ∈ (contentFileName (titleOf book) (authorName a)).toList,
        c ∉ reservedChars) ∧
      hasDir r [out, bookFolderName (titleOf book) (authorName a)] = true ∧
      hasFile r [out, bookFolderName (titleOf book) (authorName a),
        contentFileName (titleOf book) (authorName a)] = true := by
  refine ⟨pyTake10_replaceSlash_comm (book.title?.getD "Unknown Title"), ?_⟩
  obtain ⟨a, ha⟩ := firstAuthor_ok book hA
  obtain ⟨lang, hl⟩ := firstLanguage_ok book hL
  exact ⟨a, _, ha, download_book_success book out net a lang url text ha hl hU hN,
    bookFolderName_no_reserved _ _, contentFileName_no_reserved _ _,
    hasDir_downloadBody book out net (titleOf book) (authorName a) lang url text,
    hasFile_content_downloadBody book out net (titleOf book) (authorName a)
      lang url text⟩

def c9book : Book :=
  { title? := some "A Very Long Title/Name"
    authors? := none
    languages? := none
    formats? := some [("text/plain", "http://u9")] }

def c9net : String → Option String :=
  fun u => if u = "http://u9" then some "text" else none

theorem claim_C9_witness :
    titleOf c9book =
      pyTake10 (pyReplaceSlash (pyTake10 (c9book.title?.getD "Unknown Title"))) ∧
    titleOf c9book = "A Very Lon" := by
  have h := claim_C9_name_derivation c9book "out9" c9net "http://u9" "text"
    (by simp [c9book]) (by simp [c9book]) rfl rfl
  exact ⟨h.1, by decide⟩
